import Mathlib

/-!
# Verification of the Multimodal-RAG ingestion and query pipeline

A shallow embedding of the repository's ingestion pipeline
(`populate_database.py`) and query pipeline (`app_api_handler.py`,
`src/app_work_handler.py`, `src/rag_app/query_rag.py`, `query_model.py`),
together with theorems settling the behavioural claims about them.

External collaborators (pymupdf page parsing, the Bedrock embedding and
generation models, DynamoDB, Chroma) enter the model as parameters or as
explicit `Except`-valued responses; everything the repository itself
computes is translated directly from the Python source.  Python strings
are `String` (or `List Char` where character-level computation matters),
Python ints are `Nat`/`Int`, raised exceptions are `Except.error`, and
`None`-able values are `Option`.
-/

namespace MultimodalRag

/-! ## Decimal rendering support

`add_to_chroma` builds chunk ids with an f-string whose last component is
the decimal rendering of a Python `hash` value.  To reason about equality
of those id strings we need that `Int.repr` (Lean's decimal rendering,
which matches Python's for word-sized ints) is injective.  `decDigits` is
a structurally recursive restatement of core's fuel-based
`Nat.toDigitsCore`, used only to prove that fact. -/

/-- Structural-recursion version of `Nat.toDigits 10`. -/
def decDigits (n : Nat) : List Char :=
  if _h : n < 10 then [Nat.digitChar n]
  else decDigits (n / 10) ++ [Nat.digitChar (n % 10)]
decreasing_by exact Nat.div_lt_self (by omega) (by omega)

/-- Value of a decimal digit string, used to invert `decDigits`. -/
def digitsVal (l : List Char) : Nat :=
  l.foldl (fun a c => a * 10 + (c.toNat - 48)) 0

/-! ## Ingestion data model (`populate_database.py`) -/

/-- A langchain `Document` as this repository populates it: the page
content plus the metadata keys the code reads or writes (`source`,
`page`, optional `type`, optional `image_index`/`table_index`, and the
`id` later assigned by `add_to_chroma`).  An absent dictionary key is
`none`. -/
structure Doc where
  pageContent : String
  source : String
  page : Nat
  mtype : Option String := none
  imageIndex : Option Nat := none
  tableIndex : Option Nat := none
  mid : Option String := none
deriving DecidableEq, Repr

/-- One parsed PDF page as `extract_pdf_content` consumes it through
pymupdf: the page text (`page.get_text("text")`), the base64 payload of
each embedded image (the bytes-to-base64 step is an injective encoding
kept opaque here), and the text blocks of `page.get_text("dict")`, each
block a list of lines, each line the list of its span texts.  A block
without a `"lines"` key is the empty list. -/
structure Page where
  text : String
  images : List String
  blocks : List (List (List String))
deriving DecidableEq, Repr

/-- Python's `str.strip` character class (ASCII part). -/
def isPySpace (c : Char) : Bool :=
  c == ' ' || c == '\t' || c == '\n' || c == '\r' || c == '\x0b' || c == '\x0c'

/-- Python `str.strip()`: drop leading and trailing whitespace. -/
def pyStrip (l : List Char) : List Char :=
  ((l.dropWhile isPySpace).reverse.dropWhile isPySpace).reverse

/-- Python `sep.join(parts)`. -/
def pyJoin (sep : String) : List String → String
  | [] => ""
  | [x] => x
  | x :: y :: xs => x ++ sep ++ pyJoin sep (y :: xs)

/-- Table payload reconstruction from `extract_pdf_content`:
`"\n".join("\t".join(span text for span in line) for line in lines)`. -/
def tableContent (lines : List (List String)) : String :=
  pyJoin "\n" (lines.map (pyJoin "\t"))

/-- The table heuristic of `extract_pdf_content`: more than one line and
every line has at least one span. -/
def isTableBlock (lines : List (List String)) : Bool :=
  decide (lines.length > 1) && lines.all (fun line => line.length > 0)

/-- Units emitted for a single page by `extract_pdf_content`, in source
order: the text unit (guarded by `text.strip()`), then one unit per
embedded image, then one unit per block passing the table heuristic.
`pageNum` is the 1-based page number written into the metadata. -/
def extractPage (source : String) (pageNum : Nat) (pg : Page) : List Doc :=
  (if pyStrip pg.text.data ≠ [] then
      [{ pageContent := pg.text, source := source, page := pageNum }]
    else [])
  ++ pg.images.enum.map (fun p =>
      { pageContent := p.2, source := source, page := pageNum,
        mtype := some "image", imageIndex := some p.1 })
  ++ pg.blocks.enum.filterMap (fun p =>
      if isTableBlock p.2 then
        some { pageContent := tableContent p.2, source := source, page := pageNum,
               mtype := some "table", tableIndex := some p.1 }
      else none)

/-- The `for page_num in range(len(pdf_document))` loop of
`extract_pdf_content`, with `n` pages already consumed. -/
def extractFrom (source : String) : Nat → List Page → List Doc
  | _, [] => []
  | n, pg :: rest => extractPage source (n + 1) pg ++ extractFrom source (n + 1) rest

/-- `extract_pdf_content(file_path)`: all units of a document, pages in
ascending order. -/
def extract_pdf_content (source : String) (pages : List Page) : List Doc :=
  extractFrom source 0 pages

def DATA_SOURCE_PATH : String := "src/data/source"

/-- `file_name.lower().endswith(".pdf")`. -/
def endsWithPdfLower (name : String) : Bool :=
  List.isPrefixOf (".pdf".data.reverse) ((name.data.map Char.toLower).reverse)

/-- `load_documents()`: iterate over the directory listing, open each
`.pdf` file and extend the accumulated list with its extracted units.
`openPdf` stands for `fitz.open` plus the page reads; a pymupdf failure
is `Except.error`.  There is no `try`/`except` in the source, so an error
propagates out of the whole loop and every already-extracted unit is
discarded. -/
def load_documents (openPdf : String → Except String (List Page)) :
    List String → Except String (List Doc)
  | [] => .ok []
  | f :: fs =>
    if endsWithPdfLower f then
      match openPdf (DATA_SOURCE_PATH ++ "/" ++ f) with
      | .error e => .error e
      | .ok pages =>
        match load_documents openPdf fs with
        | .error e => .error e
        | .ok rest => .ok (extract_pdf_content (DATA_SOURCE_PATH ++ "/" ++ f) pages ++ rest)
    else load_documents openPdf fs

/-! ## Chunk splitting (`split_documents`)

`split_documents` hands every loaded document — whatever its `type`
metadata — to a langchain `RecursiveCharacterTextSplitter` configured
with `chunk_size=5000`, `chunk_overlap=200`, `length_function=len`,
`is_separator_regex=False` and the library defaults
`separators=["\n\n", "\n", " ", ""]`, `keep_separator=True`,
`strip_whitespace=True`.  The splitter is modelled character-for-
character over `List Char`; with `is_separator_regex=False` the regex
operations reduce to literal-substring search and split. -/

/-- `re.search(re.escape(sep), text)`: does `sep` occur as a contiguous
substring? -/
def subOccurs (sep : List Char) : List Char → Bool
  | [] => sep.isEmpty
  | c :: cs => List.isPrefixOf sep (c :: cs) || subOccurs sep cs

/-- The separator-selection loop of `_split_text`: `separator` starts as
the last configured separator; the scan breaks at the first `""` or at
the first separator occurring in the text, recording the remaining
separators for recursion. -/
def scanSep (dflt : List Char) (text : List Char) :
    List (List Char) → List Char × List (List Char)
  | [] => (dflt, [])
  | s :: rest =>
    if s = [] then ([], [])
    else if subOccurs s text then (s, rest)
    else scanSep dflt text rest

def findSep (seps : List (List Char)) (text : List Char) :
    List Char × List (List Char) :=
  scanSep (seps.getLastD []) text seps

/-- Split on a literal separator, leftmost non-overlapping occurrences
(`re.split` on the escaped separator).  The accumulator holds the current
piece reversed. -/
def splitOnSubAux (sep : List Char) : List Char → List Char → List (List Char)
  | [], acc => [acc.reverse]
  | c :: cs, acc =>
    if sep ≠ [] ∧ List.isPrefixOf sep (c :: cs) then
      acc.reverse :: splitOnSubAux sep (List.drop sep.length (c :: cs)) []
    else splitOnSubAux sep cs (c :: acc)
termination_by text _ => text.length
decreasing_by
  · simp only [List.length_drop, List.length_cons]
    have : sep.length ≥ 1 := by
      rcases sep with _ | ⟨x, xs⟩
      · simp at *
      · simp
    omega
  · simp

/-- `_split_text_with_regex(text, separator, keep_separator=True)`: for a
nonempty separator, split and re-attach each separator occurrence to the
front of the following piece; for `""`, `list(text)`.  Empty pieces are
filtered out. -/
def splitWithKeep (sep : List Char) (text : List Char) : List (List Char) :=
  (if sep = [] then text.map (fun c => [c])
   else
     match splitOnSubAux sep text [] with
     | [] => []
     | p :: ps => p :: ps.map (fun q => sep ++ q))
  |>.filter (fun p => !p.isEmpty)

/-- `_join_docs(docs, separator)` with `keep_separator=True` (so the join
separator is `""`) and `strip_whitespace=True`: concatenate, strip, and
drop the chunk if nothing remains. -/
def joinDocs (docs : List (List Char)) : Option (List Char) :=
  let t := pyStrip docs.flatten
  if t = [] then none else some t

/-- The chunk-overlap pop loop of `_merge_splits`:
`while total > chunk_overlap or (total + len > chunk_size and total > 0):
pop the head of current_doc`.  (With the invariant `total = sum of
lengths of cur` the list is never exhausted while the condition holds.) -/
def popOverlap (N O len : Nat) : List (List Char) → Nat → List (List Char) × Nat
  | cur, total =>
    if total > O ∨ (total + len > N ∧ total > 0) then
      match cur with
      | [] => ([], total)
      | c :: rest => popOverlap N O len rest (total - c.length)
    else (cur, total)
termination_by cur _ => cur.length

/-- One iteration of the `for d in splits` loop of `_merge_splits`
(separator length 0 throughout, see `joinDocs`): state is (emitted docs,
current_doc, total). -/
def mergeStep (N O : Nat) (st : List (List Char) × List (List Char) × Nat)
    (d : List Char) : List (List Char) × List (List Char) × Nat :=
  let docs := st.1
  let cur := st.2.1
  let total := st.2.2
  let len := d.length
  let next :=
    if total + len > N then
      if cur ≠ [] then
        let docs' :=
          match joinDocs cur with
          | some t => docs ++ [t]
          | none => docs
        let pc := popOverlap N O len cur total
        (docs', pc.1, pc.2)
      else (docs, cur, total)
    else (docs, cur, total)
  (next.1, next.2.1 ++ [d], next.2.2 + len)

/-- `_merge_splits(splits, separator)` for this configuration. -/
def mergeSplits (N O : Nat) (splits : List (List Char)) : List (List Char) :=
  let st := splits.foldl (mergeStep N O) ([], [], 0)
  match joinDocs st.2.1 with
  | some t => st.1 ++ [t]
  | none => st.1

/-- One iteration of the `for s in splits` loop of `_split_text`: a
split shorter than the chunk size joins the `_good_splits` buffer;
otherwise the buffer is flushed through `_merge_splits` and the oversized
split is handed to `handleBig` (either kept whole, when no separators
remain, or split recursively). -/
def splitStep (N O : Nat) (handleBig : List Char → List (List Char))
    (st : List (List Char) × List (List Char)) (s : List Char) :
    List (List Char) × List (List Char) :=
  if s.length < N then (st.1, st.2 ++ [s])
  else
    let fin := if st.2 = [] then st.1 else st.1 ++ mergeSplits N O st.2
    (fin ++ handleBig s, [])

/-- `_split_text(text, separators)`.  The recursion on the remaining
separators is driven by a fuel argument that strictly exceeds the length
of the separator list (each recursive call uses a strict suffix, so the
fuel never runs out on reachable calls). -/
def splitTextFuel (N O : Nat) : Nat → List (List Char) → List Char → List (List Char)
  | 0, _, _ => []
  | fuel + 1, seps, text =>
    let sn := findSep seps text
    let splits := splitWithKeep sn.1 text
    let st := splits.foldl
      (splitStep N O (fun s =>
        if sn.2 = [] then [s] else splitTextFuel N O fuel sn.2 s))
      ([], [])
    if st.2 = [] then st.1 else st.1 ++ mergeSplits N O st.2

/-- The default separator list of `RecursiveCharacterTextSplitter`. -/
def RCTS_SEPARATORS : List (List Char) := [['\n', '\n'], ['\n'], [' '], []]

/-- `split_text(text)` for the configured splitter. -/
def split_text (N O : Nat) (text : List Char) : List (List Char) :=
  splitTextFuel N O (RCTS_SEPARATORS.length + 1) RCTS_SEPARATORS text

/-- `split_documents(documents)`: split every document's content and give
each derived chunk a copy of the original metadata
(`create_documents` with `add_start_index=False`). -/
def split_documents (docs : List Doc) : List Doc :=
  docs.flatMap (fun d =>
    (split_text 5000 200 d.pageContent.data).map (fun chunk =>
      { d with pageContent := chunk.asString }))

/-! ## Chunk identity and deduplicating write (`add_to_chroma`)

Python's builtin `hash` on strings is an external, per-process-seeded
function into the word-sized range `Py_hash_t`; it enters the model as a
parameter `h : String → Int`. -/

/-- The id assigned in `add_to_chroma`:
`f"{source}:{page}:{doc_type}:{hash(doc.page_content)}"` where
`doc_type = metadata.get("type", "text")`. -/
def chunkId (h : String → Int) (d : Doc) : String :=
  d.source ++ ":" ++ Nat.repr d.page ++ ":" ++ d.mtype.getD "text" ++ ":"
    ++ Int.repr (h d.pageContent)

/-- The id-assignment loop of `add_to_chroma`. -/
def assignIds (h : String → Int) (docs : List Doc) : List Doc :=
  docs.map (fun d => { d with mid := some (chunkId h d) })

/-- `add_to_chroma(documents)`: assign ids, filter out documents whose id
is already present, add the rest.  The Chroma collection is represented
by the one thing the dedup logic reads from it, its list of stored ids
(`db.get(include=[])["ids"]`).  Returns the inserted documents and the
id state after `db.add_documents`. -/
def add_to_chroma (h : String → Int) (docs : List Doc) (existingIds : List String) :
    List Doc × List String :=
  let docs' := assignIds h docs
  let newDocs := docs'.filter (fun d => !(existingIds.elem (d.mid.getD "")))
  (newDocs, existingIds ++ newDocs.map (fun d => d.mid.getD ""))

/-! ## Query pipeline (`src/rag_app/query_rag.py`) -/

/-- The response dataclass of `query_rag`. -/
structure QueryResponse where
  query_text : String
  response_text : String
  sources : List String
deriving DecidableEq, Repr

/-- An ASCII single quote, kept out of string literals. -/
def sq : String := (Char.ofNat 39).toString

/-- The fixed instruction template (`PROMPT_TEMPLATE`), split around its
two placeholders. -/
def PROMPT_TEMPLATE_PRE : String :=
  "\nIf the context is not enough for an answer, add contact information to the response and advise to contact \nsupport "
    ++ sq ++ "support@airobotics.com" ++ sq
    ++ "\nDo not include wording like: \"The context does not provide enough information\" into the answer.\nAnswer the question based only on the following context:\n\n\n"

def PROMPT_TEMPLATE_MID : String :=
  "\n\n---\n\nAnswer the question based on the above context: "

/-- The rendered prompt: the template with `{context}` and `{question}`
substituted. -/
def prompt_for (contextText questionText : String) : String :=
  PROMPT_TEMPLATE_PRE ++ contextText ++ PROMPT_TEMPLATE_MID ++ questionText

/-- One step of the grouping loop in `query_rag`: dispatch on
`doc.metadata.get("type", "text")` and append the payload (with the
`"Image (Base64): "` marker for images) to the matching group. -/
def groupStep (st : List String × List String × List String) (d : Doc) :
    List String × List String × List String :=
  let ct := d.mtype.getD "text"
  if ct = "text" then (st.1 ++ [d.pageContent], st.2.1, st.2.2)
  else if ct = "table" then (st.1, st.2.1 ++ [d.pageContent], st.2.2)
  else if ct = "image" then (st.1, st.2.1, st.2.2 ++ ["Image (Base64): " ++ d.pageContent])
  else st

/-- The `for doc, _score in results` grouping loop: the three context
groups in retrieval rank order.  The score is bound and discarded exactly
as in the source. -/
def groupContext {σ : Type} (results : List (Doc × σ)) :
    List String × List String × List String :=
  (results.map Prod.fst).foldl groupStep ([], [], [])

/-- `context_text`: the single structured block, three labeled sections
in fixed order, each the `"\n\n"`-join of its group. -/
def context_text {σ : Type} (results : List (Doc × σ)) : String :=
  let g := groupContext results
  "### Text:\n" ++ pyJoin "\n\n" g.1
    ++ "\n\n### Tables:\n" ++ pyJoin "\n\n" g.2.1
    ++ "\n\n### Images:\n" ++ pyJoin "\n\n" g.2.2

/-- `query_rag(query_text)`.  Retrieval
(`db.similarity_search_with_score(query_text, k=5)`) is an external
collaborator, so its result list is a parameter; `gen` is the
`ChatBedrock` construction plus `model.invoke(prompt).content`, whose
raised exception (any `Exception e`) is `Except.error (str e)`.  The
`try`/`except` around generation is the `match`: on failure the response
text is the deterministic fallback string and execution continues. -/
def query_rag {σ : Type} (gen : String → Except String String)
    (results : List (Doc × σ)) (queryText : String) : QueryResponse :=
  let ctx := context_text results
  let prompt := prompt_for ctx queryText
  let responseText :=
    match gen prompt with
    | .ok t => t
    | .error e => "Error generating response: " ++ e
  let sources := results.map (fun r => r.1.mid.getD "unknown")
  { query_text := queryText, response_text := responseText, sources := sources }

/-! ## Job model and dispatch (`query_model.py`, `app_api_handler.py`,
`src/app_work_handler.py`) -/

/-- `QueryModel`.  `query_id` and `create_time` are produced by external
generators (uuid4, time) and enter as constructor arguments. -/
structure QueryModel where
  query_id : String
  create_time : Int
  query_text : String
  answer_text : Option String := none
  sources : List String := []
  is_complete : Bool := false
deriving DecidableEq, Repr

/-- `put_item`: a DynamoDB `put_item` is a full-record upsert keyed by
`query_id`.  `as_ddb_item` omits `None`-valued fields on write and
`get_item`'s `cls(**item)` restores them from pydantic defaults, so the
stored record is represented by the model itself. -/
def put_item (job : QueryModel) (store : String → Option QueryModel) :
    String → Option QueryModel :=
  fun k => if k = job.query_id then some job else store k

/-- `QueryModel.get_item(query_id)`: the DynamoDB `get_item` response for
the key is an external collaborator — `Except.error` for a raised
`ClientError`, `.ok none` for a response without an `"Item"`, `.ok (some
item)` otherwise.  The source catches `ClientError`, logs it and returns
`None`; a missing item also returns `None`. -/
def get_item (backend : String → Except String (Option QueryModel))
    (queryId : String) : Option QueryModel :=
  match backend queryId with
  | .error _ => none
  | .ok none => none
  | .ok (some item) => some item

/-- The pieces of observable system state the dispatch paths touch: the
job store and the list of asynchronous worker invocations issued so far
(`lambda_client.invoke(FunctionName=..., InvocationType="Event",
Payload=json.dumps(query.model_dump()))`, recorded as the target name
together with the serialized job record). -/
structure SysState where
  store : String → Option QueryModel
  invocations : List (String × QueryModel)

/-- `invoke_worker(query)`: a one-way asynchronous send of the full job
record to the configured worker target. -/
def invoke_worker (workerName : String) (job : QueryModel) (st : SysState) : SysState :=
  { st with invocations := st.invocations ++ [(workerName, job)] }

/-- `submit_query_endpoint(request)`.  `workerLambdaName` is
`WORKER_LAMBDA_NAME` (an optional environment variable); `rag` is the
`query_rag` pipeline for the submitted text; `freshId`/`now` are the
uuid4 hex and timestamp defaults of `QueryModel`.  Returns the response
body and the state after the call. -/
def submit_query_endpoint (workerLambdaName : Option String)
    (rag : String → QueryResponse) (freshId : String) (now : Int)
    (queryText : String) (st : SysState) : QueryModel × SysState :=
  let newQuery : QueryModel :=
    { query_id := freshId, create_time := now, query_text := queryText }
  match workerLambdaName with
  | some name =>
    let st := { st with store := put_item newQuery st.store }
    let st := invoke_worker name newQuery st
    (newQuery, st)
  | none =>
    let resp := rag queryText
    let completed :=
      { newQuery with
        answer_text := some resp.response_text,
        sources := resp.sources,
        is_complete := true }
    (completed, { st with store := put_item completed st.store })

/-- `invoke_rag(query_item)` from the worker handler: run the pipeline on
the job's text, set `answer_text`/`sources`/`is_complete` together, and
persist the updated record. -/
def invoke_rag (rag : String → QueryResponse) (queryItem : QueryModel)
    (st : SysState) : QueryModel × SysState :=
  let resp := rag queryItem.query_text
  let updated :=
    { queryItem with
      answer_text := some resp.response_text,
      sources := resp.sources,
      is_complete := true }
  (updated, { st with store := put_item updated st.store })

/-! ## Claim-support definitions -/

/-- The effective content type of a unit:
`doc.metadata.get("type", "text")`. -/
def typeOf (d : Doc) : String := d.mtype.getD "text"

/-- Rank of a unit's kind in the order the spec claims for extraction:
text, then tables, then images. -/
def specKindRank (d : Doc) : Nat :=
  if d.mtype = some "table" then 1 else if d.mtype = some "image" then 2 else 0

/-- Rank of a unit's kind in the order the code actually emits:
text, then images, then tables. -/
def codeKindRank (d : Doc) : Nat :=
  if d.mtype = some "image" then 1 else if d.mtype = some "table" then 2 else 0

/-- Extraction output order: pages ascending, and the given kind rank
non-decreasing within a page. -/
def pageOrder (rank : Doc → Nat) (a b : Doc) : Prop :=
  a.page < b.page ∨ (a.page = b.page ∧ rank a ≤ rank b)

instance (rank : Doc → Nat) : DecidableRel (pageOrder rank) := fun a b => by
  unfold pageOrder; infer_instance

/-- Total length of a list of pieces (the running `total` of
`_merge_splits` equals this for the current buffer). -/
def sumLens (l : List (List Char)) : Nat := (l.map List.length).sum

/-- A sample image unit used as a concrete witness input. -/
def sampleImageDoc : Doc :=
  { pageContent := "hi", source := "s.pdf", page := 3, mtype := some "image",
    imageIndex := some 0 }

/-- A pymupdf stand-in for which exactly one file is unreadable. -/
def badOpen : String → Except String (List Page) := fun p =>
  if p = DATA_SOURCE_PATH ++ "/" ++ "bad.pdf" then .error "cannot open broken PDF"
  else .ok [{ text := "fine", images := [], blocks := [] }]

/-! ## Lemmas: decimal rendering is injective -/

theorem digitChar_sub_48 (m : Nat) (h : m < 10) : (Nat.digitChar m).toNat - 48 = m := by
  interval_cases m <;> decide

theorem digitChar_ne_dash (m : Nat) (h : m < 10) : Nat.digitChar m ≠ '-' := by
  interval_cases m <;> decide

theorem digitsVal_append_digit (l : List Char) (c : Char) :
    digitsVal (l ++ [c]) = digitsVal l * 10 + (c.toNat - 48) := by
  simp [digitsVal, List.foldl_append]

theorem digitsVal_decDigits (n : Nat) : digitsVal (decDigits n) = n := by
  induction n using Nat.strong_induction_on with
  | _ n ih =>
    rw [decDigits]
    split
    · next h =>
      simp only [digitsVal, List.foldl_cons, List.foldl_nil]
      rw [Nat.zero_mul, Nat.zero_add, digitChar_sub_48 n h]
    · next h =>
      rw [digitsVal_append_digit, ih (n / 10) (Nat.div_lt_self (by omega) (by omega)),
        digitChar_sub_48 (n % 10) (Nat.mod_lt n (by omega))]
      have := Nat.div_add_mod n 10
      omega

theorem decDigits_ne_nil (n : Nat) : decDigits n ≠ [] := by
  rw [decDigits]; split <;> simp

theorem dash_not_mem_decDigits (n : Nat) : '-' ∉ decDigits n := by
  induction n using Nat.strong_induction_on with
  | _ n ih =>
    rw [decDigits]
    split
    · next h =>
      simp only [List.mem_singleton]
      exact fun hc => digitChar_ne_dash n h hc.symm
    · next h =>
      simp only [List.mem_append, List.mem_singleton, not_or]
      exact ⟨ih (n / 10) (Nat.div_lt_self (by omega) (by omega)),
        fun hc => digitChar_ne_dash (n % 10) (Nat.mod_lt n (by omega)) hc.symm⟩

theorem toDigitsCore_eq_decDigits (fuel : Nat) :
    ∀ n ds, n < fuel → Nat.toDigitsCore 10 fuel n ds = decDigits n ++ ds := by
  induction fuel with
  | zero => omega
  | succ fuel ih =>
    intro n ds h
    rw [Nat.toDigitsCore]
    by_cases h10 : n / 10 = 0
    · have hn : n < 10 := (Nat.div_eq_zero_iff (by omega)).mp h10
      simp only [h10, if_pos]
      rw [decDigits]
      simp [hn, Nat.mod_eq_of_lt hn]
    · have hn : 10 ≤ n := by
        rcases Nat.lt_or_ge n 10 with h' | h'
        · exfalso; exact h10 (Nat.div_eq_of_lt h')
        · exact h'
      simp only [h10, if_neg, ite_false]
      rw [ih (n / 10) _ (by have := Nat.div_lt_self (show 0 < n by omega) (show 1 < 10 by omega); omega)]
      conv_rhs => rw [decDigits]
      rw [dif_neg (by omega)]
      simp

theorem natRepr_data (n : Nat) : (Nat.repr n).data = decDigits n := by
  unfold Nat.repr Nat.toDigits
  rw [toDigitsCore_eq_decDigits (n + 1) n [] (Nat.lt_succ_self n)]
  simp [List.asString]

theorem natRepr_injective : Function.Injective Nat.repr := by
  intro a b hab
  have h : decDigits a = decDigits b := by
    rw [← natRepr_data, ← natRepr_data, hab]
  have := congrArg digitsVal h
  rwa [digitsVal_decDigits, digitsVal_decDigits] at this

theorem intRepr_data_neg (n : Nat) :
    (Int.repr (Int.negSucc n)).data = '-' :: decDigits (n + 1) := by
  show (("-" : String) ++ Nat.repr (n + 1)).data = _
  rw [String.data_append, natRepr_data]
  rfl

theorem intRepr_injective : Function.Injective Int.repr := by
  intro a b hab
  cases a with
  | ofNat m =>
    cases b with
    | ofNat n =>
      have : Nat.repr m = Nat.repr n := hab
      rw [natRepr_injective this]
    | negSucc n =>
      exfalso
      have hd : (Int.repr (Int.ofNat m)).data = decDigits m := natRepr_data m
      rw [hab, intRepr_data_neg] at hd
      exact dash_not_mem_decDigits m (hd ▸ List.mem_cons_self '-' _)
  | negSucc m =>
    cases b with
    | ofNat n =>
      exfalso
      have hd : (Int.repr (Int.ofNat n)).data = decDigits n := natRepr_data n
      rw [← hab, intRepr_data_neg] at hd
      exact dash_not_mem_decDigits n (hd ▸ List.mem_cons_self '-' _)
    | negSucc n =>
      have hd := congrArg String.data hab
      rw [intRepr_data_neg, intRepr_data_neg] at hd
      have : decDigits (m + 1) = decDigits (n + 1) := by
        injection hd
      have hv := congrArg digitsVal this
      rw [digitsVal_decDigits, digitsVal_decDigits] at hv
      have hmn : m = n := by omega
      rw [hmn]

theorem string_data_inj {s t : String} (h : s.data = t.data) : s = t := by
  cases s; cases t; exact congrArg String.mk h

/-! ## C1: chunk identity -/

/-- C1, counterexample.  The claim asserts that units differing in
payload always receive distinct ids.  The id's only payload-dependent
component is `hash(doc.page_content)`, and CPython's `hash` returns a
word-sized signed integer (`Py_hash_t`, i.e. a value in
`[-2^63, 2^63)`).  No function from the (infinite) space of payload
strings into that finite range can separate all payloads, so for every
possible hash function two distinct payloads with the same source, page
and kind collide on the same id. -/
theorem C1_counterexample :
    ¬ ∃ h : String → Int,
      (∀ s, h s ∈ Set.Icc (-(2 ^ 63) : Int) (2 ^ 63 - 1)) ∧
      ∀ p₁ p₂ : String, p₁ ≠ p₂ →
        chunkId h { pageContent := p₁, source := "doc.pdf", page := 1 } ≠
        chunkId h { pageContent := p₂, source := "doc.pdf", page := 1 } := by
  rintro ⟨h, hbound, hinj⟩
  haveI : Finite (Set.Icc (-(2 ^ 63) : Int) (2 ^ 63 - 1)) :=
    (Set.finite_Icc _ _).to_subtype
  obtain ⟨x, y, hxy, hfeq⟩ :=
    Finite.exists_ne_map_eq_of_infinite
      (fun s : String => (⟨h s, hbound s⟩ : Set.Icc (-(2 ^ 63) : Int) (2 ^ 63 - 1)))
  have hh : h x = h y := congrArg Subtype.val hfeq
  exact hinj x y hxy (by unfold chunkId; rw [hh])

/-- C1, amended.  The id assigned in `add_to_chroma` is a pure
function of (source, page, kind, hash(payload)): for two units agreeing
on source, page and kind, their ids are equal exactly when their payload
hashes are equal.  In particular identical (source, page, kind, payload)
always yield the identical id under the process's hash function, and
payloads with distinct hash values yield distinct ids — but distinct
payloads as such are not guaranteed distinct ids (see the
counterexample), and stability across runs holds only as far as the
language-default hash itself is stable. -/
theorem C1_id_determined_by_hash (h : String → Int) (d d' : Doc)
    (hs : d.source = d'.source) (hp : d.page = d'.page) (ht : d.mtype = d'.mtype) :
    chunkId h d = chunkId h d' ↔ h d.pageContent = h d'.pageContent := by
  unfold chunkId
  rw [hs, hp, ht]
  constructor
  · intro he
    have hdata := congrArg String.data he
    rw [String.data_append, String.data_append] at hdata
    have := List.append_cancel_left hdata
    exact intRepr_injective (string_data_inj this)
  · intro hv
    rw [hv]

/-- C1, witness.  With string length as the hash function, two
payloads of different length receive ids that are distinct exactly
because their hashes differ. -/
theorem C1_witness :
    (chunkId (fun s => (s.length : Int))
        { pageContent := "pay", source := "doc.pdf", page := 1 } =
      chunkId (fun s => (s.length : Int))
        { pageContent := "payload", source := "doc.pdf", page := 1 }) ↔
    ((("pay" : String).length : Int) = (("payload" : String).length : Int)) :=
  C1_id_determined_by_hash (fun s => (s.length : Int))
    { pageContent := "pay", source := "doc.pdf", page := 1 }
    { pageContent := "payload", source := "doc.pdf", page := 1 } rfl rfl rfl

/-! ## C2: deduplicating, idempotent ingestion write -/

/-- C2.  `add_to_chroma` inserts exactly the chunks whose id is not
already stored: every inserted chunk's id was absent from the index, and
re-running the same ingestion over the state left by the first run
inserts nothing. -/
theorem C2_dedup_idempotent (h : String → Int) (docs : List Doc) (st : List String) :
    (∀ d ∈ (add_to_chroma h docs st).1, d.mid.getD "" ∉ st)
    ∧ (add_to_chroma h docs (add_to_chroma h docs st).2).1 = [] := by
  constructor
  · intro d hd
    simp only [add_to_chroma, List.mem_filter, Bool.not_eq_true] at hd
    have := hd.2
    simpa using this
  · apply List.filter_eq_nil_iff.mpr
    intro d hd
    simp only [Bool.not_eq_true, Bool.not_eq_false]
    have hmem : d.mid.getD "" ∈
        st ++ ((assignIds h docs).filter
          (fun d => !(st.elem (d.mid.getD "")))).map (fun d => d.mid.getD "") := by
      by_cases hin : d.mid.getD "" ∈ st
      · exact List.mem_append_left _ hin
      · refine List.mem_append_right _ ?_
        refine List.mem_map.mpr ⟨d, ?_, rfl⟩
        refine List.mem_filter.mpr ⟨hd, ?_⟩
        simpa using hin
    simpa [add_to_chroma] using hmem

/-- C2, witness at a concrete chunk list and an index that already
holds an unrelated id: the second run over the state left by the first
inserts nothing. -/
theorem C2_witness :
    (add_to_chroma (fun _ => 7)
      [{ pageContent := "payload", source := "doc.pdf", page := 1 }]
      (add_to_chroma (fun _ => 7)
        [{ pageContent := "payload", source := "doc.pdf", page := 1 }]
        ["other-id"]).2).1 = [] :=
  (C2_dedup_idempotent (fun _ => 7)
    [{ pageContent := "payload", source := "doc.pdf", page := 1 }] ["other-id"]).2

/-! ## C3: generation failure is contained -/

/-- C3.  If the generation collaborator fails on the prompt built for
this query (any exception `e`), `query_rag` still returns — in the model
it is a total function whose `try`/`except` branch is the `match` — with
the deterministic fallback `"Error generating response: " ++ e` as the
answer; and on both dispatch paths (the worker handler's `invoke_rag`
and the synchronous branch of `submit_query_endpoint`) the job reaches
`is_complete = true` with that fallback persisted as its answer. -/
theorem C3_generation_failure_contained {σ : Type}
    (gen : String → Except String String) (results : List (Doc × σ))
    (e : String) (jobId : String) (now : Int) (q : String) (st : SysState)
    (hgen : gen (prompt_for (context_text results) q) = .error e) :
    (query_rag gen results q).response_text = "Error generating response: " ++ e
    ∧ (let job : QueryModel := { query_id := jobId, create_time := now, query_text := q }
       let r := invoke_rag (query_rag gen results) job st
       r.1.is_complete = true
       ∧ r.1.answer_text = some ("Error generating response: " ++ e)
       ∧ r.2.store jobId = some r.1)
    ∧ (let r := submit_query_endpoint none (query_rag gen results) jobId now q st
       r.1.is_complete = true
       ∧ r.1.answer_text = some ("Error generating response: " ++ e)
       ∧ r.2.store jobId = some r.1) := by
  refine ⟨?_, ⟨rfl, ?_, ?_⟩, ⟨rfl, ?_, ?_⟩⟩ <;>
    simp [query_rag, invoke_rag, submit_query_endpoint, put_item, hgen]

/-- C3, witness at a generation collaborator that always raises. -/
theorem C3_witness :
    (query_rag (fun _ => .error "boom") ([] : List (Doc × Int)) "What is AI Robotics?").response_text
      = "Error generating response: " ++ "boom"
    ∧ (let job : QueryModel := { query_id := "j1", create_time := 0, query_text := "What is AI Robotics?" }
       let r := invoke_rag (query_rag (fun _ => .error "boom") ([] : List (Doc × Int))) job
         ⟨fun _ => none, []⟩
       r.1.is_complete = true
       ∧ r.1.answer_text = some ("Error generating response: " ++ "boom")
       ∧ r.2.store "j1" = some r.1)
    ∧ (let r := submit_query_endpoint none
         (query_rag (fun _ => .error "boom") ([] : List (Doc × Int))) "j1" 0
         "What is AI Robotics?" ⟨fun _ => none, []⟩
       r.1.is_complete = true
       ∧ r.1.answer_text = some ("Error generating response: " ++ "boom")
       ∧ r.2.store "j1" = some r.1) :=
  C3_generation_failure_contained (fun _ => .error "boom") ([] : List (Doc × Int))
    "boom" "j1" 0 "What is AI Robotics?" ⟨fun _ => none, []⟩ rfl

/-! ## C4: dispatch protocol -/

/-- C4.  With a worker target configured, `submit_query_endpoint`
persists the job pending (`is_complete = false`, no `answer_text`),
appends exactly one fire-and-forget invocation carrying the full job
record, and returns that pending job to the caller.  With no worker
target it runs the pipeline synchronously and persists and returns the
job already complete, with answer and sources set from the pipeline
response, issuing no invocation. -/
theorem C4_dispatch (name : String) (rag : String → QueryResponse)
    (uid : String) (now : Int) (q : String) (st : SysState) :
    (let r := submit_query_endpoint (some name) rag uid now q st
     r.1.is_complete = false ∧ r.1.answer_text = none ∧ r.1.query_text = q
     ∧ r.2.store uid = some r.1
     ∧ r.2.invocations = st.invocations ++ [(name, r.1)])
    ∧ (let r := submit_query_endpoint none rag uid now q st
       r.1.is_complete = true
       ∧ r.1.answer_text = some (rag q).response_text
       ∧ r.1.sources = (rag q).sources ∧ r.1.query_text = q
       ∧ r.2.store uid = some r.1
       ∧ r.2.invocations = st.invocations) := by
  refine ⟨⟨rfl, rfl, rfl, ?_, rfl⟩, ⟨rfl, rfl, rfl, rfl, ?_, rfl⟩⟩ <;>
    simp [submit_query_endpoint, invoke_worker, put_item]

/-- C4, witness at a concrete submission in both dispatch modes. -/
theorem C4_witness :
    (let r := submit_query_endpoint (some "worker-fn")
        (fun t => ⟨t, "ans", ["s1"]⟩) "j2" 5 "q?" ⟨fun _ => none, []⟩
     r.1.is_complete = false ∧ r.1.answer_text = none ∧ r.1.query_text = "q?"
     ∧ r.2.store "j2" = some r.1
     ∧ r.2.invocations = ([] : List (String × QueryModel)) ++ [("worker-fn", r.1)])
    ∧ (let r := submit_query_endpoint none
        (fun t => ⟨t, "ans", ["s1"]⟩) "j2" 5 "q?" ⟨fun _ => none, []⟩
       r.1.is_complete = true
       ∧ r.1.answer_text = some ((fun (t : String) => QueryResponse.mk t "ans" ["s1"]) "q?").response_text
       ∧ r.1.sources = ((fun (t : String) => QueryResponse.mk t "ans" ["s1"]) "q?").sources
       ∧ r.1.query_text = "q?"
       ∧ r.2.store "j2" = some r.1
       ∧ r.2.invocations = ([] : List (String × QueryModel))) :=
  C4_dispatch "worker-fn" (fun t => ⟨t, "ans", ["s1"]⟩) "j2" 5 "q?" ⟨fun _ => none, []⟩

/-! ## C9: job fetch — not-found vs. backend error -/

/-- C9, counterexample.  The claim asserts a storage backend error
during the fetch surfaces to the caller.  It does not: `get_item`
catches `ClientError`, logs it, and returns `None` — the very value that
signals not-found — so a backend error is indistinguishable from a
missing job and no error reaches the caller. -/
theorem C9_counterexample :
    get_item (fun _ => .error "ProvisionedThroughputExceededException") "job-1" = none
    ∧ get_item (fun _ => .ok none) "job-1" = none := ⟨rfl, rfl⟩

/-- C9, amended.  Fetching an id the backend has no item for yields
the explicit not-found result `none` (distinct from raising); but a
backend `ClientError` during the fetch is swallowed and also yields
`none`, while a present item is returned as the reconstructed model. -/
theorem C9_get_item_behaviour (backend : String → Except String (Option QueryModel))
    (qid : String) :
    (∀ e, backend qid = .error e → get_item backend qid = none)
    ∧ (backend qid = .ok none → get_item backend qid = none)
    ∧ (∀ item, backend qid = .ok (some item) → get_item backend qid = some item) := by
  refine ⟨fun e he => ?_, fun he => ?_, fun item he => ?_⟩ <;> simp [get_item, he]

/-- C9, witness covering all three backend responses concretely. -/
theorem C9_witness :
    get_item (fun _ => .error "throttled") "q1" = none
    ∧ get_item (fun _ => .ok none) "q2" = none
    ∧ get_item (fun _ => .ok (some { query_id := "q3", create_time := 0, query_text := "t" })) "q3"
        = some { query_id := "q3", create_time := 0, query_text := "t" } :=
  ⟨(C9_get_item_behaviour (fun _ => .error "throttled") "q1").1 "throttled" rfl,
   (C9_get_item_behaviour (fun _ => .ok none) "q2").2.1 rfl,
   (C9_get_item_behaviour
     (fun _ => .ok (some { query_id := "q3", create_time := 0, query_text := "t" })) "q3").2.2
     { query_id := "q3", create_time := 0, query_text := "t" } rfl⟩

/-! ## C10: sources list -/

/-- C10.  The sources list of `query_rag` has exactly one entry per
retrieved result, in retrieval rank order — entry `i` is result `i`'s
stored `id` metadata, or `"unknown"` when absent — and it does not
depend on the generation collaborator (in particular it is the same
whether or not generation fails). -/
theorem C10_sources {σ : Type} (gen gen' : String → Except String String)
    (results : List (Doc × σ)) (q q' : String) :
    (query_rag gen results q).sources = results.map (fun r => r.1.mid.getD "unknown")
    ∧ (query_rag gen results q).sources.length = results.length
    ∧ (query_rag gen results q).sources = (query_rag gen' results q').sources := by
  refine ⟨rfl, ?_, rfl⟩
  simp [query_rag]

/-! ## C5: context assembly -/

theorem foldl_groupStep (docs : List Doc) : ∀ a b c : List String,
    docs.foldl groupStep (a, b, c) =
      (a ++ (docs.filter (fun d => typeOf d == "text")).map Doc.pageContent,
       b ++ (docs.filter (fun d => typeOf d == "table")).map Doc.pageContent,
       c ++ (docs.filter (fun d => typeOf d == "image")).map
          (fun d => "Image (Base64): " ++ d.pageContent)) := by
  induction docs with
  | nil => simp
  | cons d ds ih =>
    intro a b c
    show List.foldl groupStep (groupStep (a, b, c) d) ds = _
    by_cases h1 : typeOf d = "text"
    · rw [show groupStep (a, b, c) d = (a ++ [d.pageContent], b, c) by
        simp [groupStep, typeOf] at h1 ⊢; simp [h1]]
      rw [ih]
      simp [List.filter_cons, h1]
    · by_cases h2 : typeOf d = "table"
      · rw [show groupStep (a, b, c) d = (a, b ++ [d.pageContent], c) by
          simp [groupStep, typeOf] at h1 h2 ⊢; simp [h1, h2]]
        rw [ih]
        simp [List.filter_cons, h1, h2]
      · by_cases h3 : typeOf d = "image"
        · rw [show groupStep (a, b, c) d = (a, b, c ++ ["Image (Base64): " ++ d.pageContent]) by
            simp [groupStep, typeOf] at h1 h2 h3 ⊢; simp [h1, h2, h3]]
          rw [ih]
          simp [List.filter_cons, h1, h2, h3]
        · rw [show groupStep (a, b, c) d = (a, b, c) by
            simp [groupStep, typeOf] at h1 h2 h3 ⊢; simp [h1, h2, h3]]
          rw [ih]
          simp [List.filter_cons, h1, h2, h3]

theorem three_filter_length (docs : List Doc)
    (h : ∀ d ∈ docs, typeOf d = "text" ∨ typeOf d = "table" ∨ typeOf d = "image") :
    docs.length =
      (docs.filter (fun d => typeOf d == "text")).length
      + (docs.filter (fun d => typeOf d == "table")).length
      + (docs.filter (fun d => typeOf d == "image")).length := by
  induction docs with
  | nil => simp
  | cons d ds ih =>
    have hds := ih (fun x hx => h x (List.mem_cons_of_mem d hx))
    rcases h d (List.mem_cons_self d ds) with h1 | h1 | h1 <;>
      · simp only [List.filter_cons, List.length_cons]
        simp [h1]
        omega

/-- C5.  `query_rag`'s context assembly is exactly the claimed
grouping: each group is the rank-order-preserving filter of the
retrieved payloads by kind (images rendered with their marker), the
single context block is the three labeled sections in the fixed order
text, tables, images — an empty group contributing an empty labeled
section — and, for result sets drawn from the pipeline's three kinds,
every retrieved unit's payload lands in exactly one section (the group
sizes sum to the number of results). -/
theorem C5_context_grouping {σ : Type} (results : List (Doc × σ)) :
    (groupContext results).1 =
        ((results.map Prod.fst).filter (fun d => typeOf d == "text")).map Doc.pageContent
    ∧ (groupContext results).2.1 =
        ((results.map Prod.fst).filter (fun d => typeOf d == "table")).map Doc.pageContent
    ∧ (groupContext results).2.2 =
        ((results.map Prod.fst).filter (fun d => typeOf d == "image")).map
          (fun d => "Image (Base64): " ++ d.pageContent)
    ∧ context_text results =
        "### Text:\n" ++ pyJoin "\n\n" (groupContext results).1
          ++ "\n\n### Tables:\n" ++ pyJoin "\n\n" (groupContext results).2.1
          ++ "\n\n### Images:\n" ++ pyJoin "\n\n" (groupContext results).2.2
    ∧ ((∀ r ∈ results, typeOf r.1 = "text" ∨ typeOf r.1 = "table" ∨ typeOf r.1 = "image") →
        (results.map Prod.fst).length =
          (groupContext results).1.length + (groupContext results).2.1.length
            + (groupContext results).2.2.length) := by
  have hg := foldl_groupStep (results.map Prod.fst) [] [] []
  refine ⟨?_, ?_, ?_, rfl, ?_⟩
  · rw [show (groupContext results).1 = ((results.map Prod.fst).foldl groupStep ([], [], [])).1 from rfl, hg]
    simp
  · rw [show (groupContext results).2.1 = ((results.map Prod.fst).foldl groupStep ([], [], [])).2.1 from rfl, hg]
    simp
  · rw [show (groupContext results).2.2 = ((results.map Prod.fst).foldl groupStep ([], [], [])).2.2 from rfl, hg]
    simp
  · intro hk
    have hk' : ∀ d ∈ results.map Prod.fst,
        typeOf d = "text" ∨ typeOf d = "table" ∨ typeOf d = "image" := by
      intro d hd
      obtain ⟨r, hr, rfl⟩ := List.mem_map.mp hd
      exact hk r hr
    have := three_filter_length (results.map Prod.fst) hk'
    rw [show groupContext results = (results.map Prod.fst).foldl groupStep ([], [], []) from rfl, hg]
    simpa using this

/-- C5, witness at one retrieved result of each kind (and one with
the type key absent, which counts as text). -/
theorem C5_witness :
    (([(({ pageContent := "t1", source := "s", page := 1 } : Doc), (1 : Int)),
       ({ pageContent := "tb", source := "s", page := 1, mtype := some "table" }, 2),
       ({ pageContent := "im", source := "s", page := 2, mtype := some "image" }, 3)]).map
          Prod.fst).length =
      (groupContext [(({ pageContent := "t1", source := "s", page := 1 } : Doc), (1 : Int)),
        ({ pageContent := "tb", source := "s", page := 1, mtype := some "table" }, 2),
        ({ pageContent := "im", source := "s", page := 2, mtype := some "image" }, 3)]).1.length
      + (groupContext [(({ pageContent := "t1", source := "s", page := 1 } : Doc), (1 : Int)),
          ({ pageContent := "tb", source := "s", page := 1, mtype := some "table" }, 2),
          ({ pageContent := "im", source := "s", page := 2, mtype := some "image" }, 3)]).2.1.length
      + (groupContext [(({ pageContent := "t1", source := "s", page := 1 } : Doc), (1 : Int)),
          ({ pageContent := "tb", source := "s", page := 1, mtype := some "table" }, 2),
          ({ pageContent := "im", source := "s", page := 2, mtype := some "image" }, 3)]).2.2.length :=
  (C5_context_grouping _).2.2.2.2 (by decide)

/-! ## C7: extraction order -/

theorem extractPage_fields {src : String} {n : Nat} {pg : Page} {d : Doc}
    (hd : d ∈ extractPage src n pg) :
    d.page = n
    ∧ (d.mtype = none ∨ d.mtype = some "image" ∨ d.mtype = some "table")
    ∧ (d.mtype = none → pyStrip d.pageContent.data ≠ []) := by
  unfold extractPage at hd
  rcases List.mem_append.mp hd with hAB | hC
  · rcases List.mem_append.mp hAB with hA | hB
    · by_cases hc : pyStrip pg.text.data ≠ []
      · rw [if_pos hc] at hA
        rcases List.mem_singleton.mp hA with rfl
        exact ⟨rfl, Or.inl rfl, fun _ => hc⟩
      · rw [if_neg hc] at hA
        exact absurd hA (List.not_mem_nil d)
    · obtain ⟨p, _, rfl⟩ := List.mem_map.mp hB
      exact ⟨rfl, Or.inr (Or.inl rfl), fun h => by simp at h⟩
  · obtain ⟨p, _, heq⟩ := List.mem_filterMap.mp hC
    by_cases hb : isTableBlock p.2
    · rw [if_pos hb] at heq
      rcases Option.some.inj heq with rfl
      exact ⟨rfl, Or.inr (Or.inr rfl), fun h => by simp at h⟩
    · rw [if_neg hb] at heq
      exact absurd heq (by simp)

theorem extractPage_pairwise (src : String) (n : Nat) (pg : Page) :
    List.Pairwise (pageOrder codeKindRank) (extractPage src n pg) := by
  unfold extractPage
  have horder : ∀ a b : Doc, a.page = n → b.page = n →
      codeKindRank a ≤ codeKindRank b → pageOrder codeKindRank a b := by
    intro a b ha hb hr
    exact Or.inr ⟨ha.trans hb.symm, hr⟩
  refine List.pairwise_append.mpr ⟨List.pairwise_append.mpr ⟨?_, ?_, ?_⟩, ?_, ?_⟩
  · split <;> simp
  · refine List.pairwise_of_forall_mem_list ?_
    intro a ha b hb
    obtain ⟨p, _, rfl⟩ := List.mem_map.mp ha
    obtain ⟨q, _, rfl⟩ := List.mem_map.mp hb
    exact horder _ _ rfl rfl (by simp [codeKindRank])
  · intro a ha b hb
    have hapage : a.page = n ∧ a.mtype = none := by
      by_cases hc : pyStrip pg.text.data ≠ []
      · rw [if_pos hc] at ha
        rcases List.mem_singleton.mp ha with rfl
        exact ⟨rfl, rfl⟩
      · rw [if_neg hc] at ha
        exact absurd ha (List.not_mem_nil a)
    obtain ⟨q, _, rfl⟩ := List.mem_map.mp hb
    refine Or.inr ⟨hapage.1, ?_⟩
    simp [codeKindRank, hapage.2]
  · refine List.pairwise_of_forall_mem_list ?_
    intro a ha b hb
    obtain ⟨p, _, hpa⟩ := List.mem_filterMap.mp ha
    obtain ⟨q, _, hqb⟩ := List.mem_filterMap.mp hb
    by_cases hp : isTableBlock p.2
    · by_cases hq : isTableBlock q.2
      · rw [if_pos hp] at hpa; rw [if_pos hq] at hqb
        rcases Option.some.inj hpa with rfl
        rcases Option.some.inj hqb with rfl
        exact horder _ _ rfl rfl (by simp [codeKindRank])
      · rw [if_neg hq] at hqb; exact absurd hqb (by simp)
    · rw [if_neg hp] at hpa; exact absurd hpa (by simp)
  · intro a ha b hb
    obtain ⟨q, _, hqb⟩ := List.mem_filterMap.mp hb
    have hbfields : b.page = n ∧ codeKindRank b = 2 := by
      by_cases hq : isTableBlock q.2
      · rw [if_pos hq] at hqb
        rcases Option.some.inj hqb with rfl
        exact ⟨rfl, by simp [codeKindRank]⟩
      · rw [if_neg hq] at hqb; exact absurd hqb (by simp)
    have hafields : a.page = n ∧ codeKindRank a ≤ 1 := by
      rcases List.mem_append.mp ha with hA | hB
      · by_cases hc : pyStrip pg.text.data ≠ []
        · rw [if_pos hc] at hA
          rcases List.mem_singleton.mp hA with rfl
          exact ⟨rfl, by simp [codeKindRank]⟩
        · rw [if_neg hc] at hA
          exact absurd hA (List.not_mem_nil a)
      · obtain ⟨p, _, rfl⟩ := List.mem_map.mp hB
        exact ⟨rfl, by simp [codeKindRank]⟩
    refine Or.inr ⟨hafields.1.trans hbfields.1.symm, ?_⟩
    omega

theorem mem_extractFrom {src : String} :
    ∀ {pages : List Page} {n : Nat} {d : Doc}, d ∈ extractFrom src n pages →
      ∃ k pg, pg ∈ pages ∧ d ∈ extractPage src k pg := by
  intro pages
  induction pages with
  | nil => intro n d hd; exact absurd hd (List.not_mem_nil d)
  | cons pg rest ih =>
    intro n d hd
    rcases List.mem_append.mp hd with h | h
    · exact ⟨n + 1, pg, List.mem_cons_self pg rest, h⟩
    · obtain ⟨k, pg', hpg', hd'⟩ := ih h
      exact ⟨k, pg', List.mem_cons_of_mem pg hpg', hd'⟩

theorem extractFrom_page_lb {src : String} :
    ∀ {pages : List Page} {n : Nat} {d : Doc}, d ∈ extractFrom src n pages →
      n + 1 ≤ d.page := by
  intro pages
  induction pages with
  | nil => intro n d hd; exact absurd hd (List.not_mem_nil d)
  | cons pg rest ih =>
    intro n d hd
    rcases List.mem_append.mp hd with h | h
    · exact le_of_eq (extractPage_fields h).1.symm
    · have := ih h; omega

theorem extractFrom_pairwise (src : String) :
    ∀ (pages : List Page) (n : Nat),
      List.Pairwise (pageOrder codeKindRank) (extractFrom src n pages) := by
  intro pages
  induction pages with
  | nil => intro n; exact List.Pairwise.nil
  | cons pg rest ih =>
    intro n
    refine List.pairwise_append.mpr ⟨extractPage_pairwise src (n + 1) pg, ih (n + 1), ?_⟩
    intro a ha b hb
    have ha' := (extractPage_fields ha).1
    have hb' := extractFrom_page_lb hb
    exact Or.inl (by omega)

/-- C7, counterexample.  On a page holding one image and one
table-like block, extraction emits the image unit *before* the table
unit, violating the claimed within-page order (text, then tables, then
images); and a page whose text is whitespace-only still emits units (its
image), so it is not true that no unit is emitted for such a page. -/
theorem C7_counterexample :
    ¬ List.Pairwise (pageOrder specKindRank)
        (extract_pdf_content "doc.pdf"
          [{ text := "hello", images := ["IMGDATA"], blocks := [[["a"], ["b"]]] }])
    ∧ extract_pdf_content "doc.pdf"
        [{ text := "   ", images := ["IMGDATA"], blocks := [] }] ≠ [] := by
  constructor
  · decide
  · decide

/-- C7, amended.  Extraction emits content units in deterministic
order: pages ascending and, within each page, text units first, then
image units, then table units; and for a page whose extracted text is
empty or whitespace-only no *text* unit is emitted (every text unit's
payload strips to something nonempty), while image and table units of
such a page are still emitted. -/
theorem C7_extraction_order (src : String) (pages : List Page) :
    List.Pairwise (pageOrder codeKindRank) (extract_pdf_content src pages)
    ∧ ∀ d ∈ extract_pdf_content src pages, d.mtype = none →
        pyStrip d.pageContent.data ≠ [] := by
  refine ⟨extractFrom_pairwise src pages 0, ?_⟩
  intro d hd hnone
  obtain ⟨k, pg, _, hd'⟩ := mem_extractFrom hd
  exact (extractPage_fields hd').2.2 hnone

/-- C7, witness: a two-page document with all three kinds present;
the emitted order is text, image, table within the page, pages
ascending, and the whitespace page contributes no text unit. -/
theorem C7_witness :
    List.Pairwise (pageOrder codeKindRank)
      (extract_pdf_content "doc.pdf"
        [{ text := "hello", images := ["IMG1"], blocks := [[["a"], ["b"]]] },
         { text := " ", images := ["IMG2"], blocks := [] }])
    ∧ ∀ d ∈ extract_pdf_content "doc.pdf"
        [{ text := "hello", images := ["IMG1"], blocks := [[["a"], ["b"]]] },
         { text := " ", images := ["IMG2"], blocks := [] }],
        d.mtype = none → pyStrip d.pageContent.data ≠ [] :=
  C7_extraction_order "doc.pdf"
    [{ text := "hello", images := ["IMG1"], blocks := [[["a"], ["b"]]] },
     { text := " ", images := ["IMG2"], blocks := [] }]

/-! ## C8: extraction failure is not isolated -/

/-- C8, counterexample.  `load_documents` has no `try`/`except`: with
a directory holding an unreadable `bad.pdf` followed by a readable
`good.pdf`, the whole run raises the extraction error — no documents are
returned for *any* file, instead of the claimed continuation over the
remaining documents. -/
theorem C8_counterexample :
    load_documents badOpen ["bad.pdf", "good.pdf"] = .error "cannot open broken PDF" := rfl

/-- C8, amended.  An extraction error while processing any single
`.pdf` document aborts the entire ingestion run: `load_documents`
propagates the first such exception, discarding the units of every other
document as well. -/
theorem C8_failure_aborts_run (openPdf : String → Except String (List Page))
    (files : List String) (f : String) (e : String)
    (hf : f ∈ files) (hpdf : endsWithPdfLower f = true)
    (herr : openPdf (DATA_SOURCE_PATH ++ "/" ++ f) = .error e) :
    ∃ e', load_documents openPdf files = .error e' := by
  induction files with
  | nil => exact absurd hf (List.not_mem_nil f)
  | cons g gs ih =>
    rcases List.mem_cons.mp hf with rfl | hfs
    · rw [load_documents, if_pos hpdf, herr]
      exact ⟨e, rfl⟩
    · rw [load_documents]
      by_cases hg : endsWithPdfLower g
      · rw [if_pos hg]
        cases hop : openPdf (DATA_SOURCE_PATH ++ "/" ++ g) with
        | error e' => exact ⟨e', rfl⟩
        | ok pages =>
          obtain ⟨e', he'⟩ := ih hfs
          rw [he']
          exact ⟨e', rfl⟩
      · rw [if_neg hg]
        exact ih hfs

/-- C8, witness: the failing file sits *after* a readable one; the
run still ends in an error. -/
theorem C8_witness :
    ∃ e', load_documents badOpen ["good.pdf", "bad.pdf"] = .error e' :=
  C8_failure_aborts_run badOpen ["good.pdf", "bad.pdf"] "bad.pdf"
    "cannot open broken PDF" (by decide) (by decide) rfl

/-! ## C6: chunk splitting

Support lemmas for evaluating the splitter on long runs of a repeated
character without deep kernel reduction. -/

theorem subOccurs_replicate (c : Char) (s' : List Char) (d : Char) (hcd : c ≠ d) :
    ∀ (n : Nat) (rest : List Char),
      subOccurs (c :: s') (List.replicate n d ++ rest) = subOccurs (c :: s') rest := by
  intro n
  induction n with
  | zero => intro rest; rfl
  | succ n ih =>
    intro rest
    rw [List.replicate_succ, List.cons_append, subOccurs]
    have hpre : List.isPrefixOf (c :: s') (d :: (List.replicate n d ++ rest)) = false := by
      simp [List.isPrefixOf, hcd]
    rw [hpre, Bool.false_or, ih]

theorem splitOnSubAux_replicate (c : Char) (s' : List Char) (d : Char) (hcd : c ≠ d) :
    ∀ (n : Nat) (rest acc : List Char),
      splitOnSubAux (c :: s') (List.replicate n d ++ rest) acc
        = splitOnSubAux (c :: s') rest (List.replicate n d ++ acc) := by
  intro n
  induction n with
  | zero => intro rest acc; rfl
  | succ n ih =>
    intro rest acc
    rw [List.replicate_succ, List.cons_append, splitOnSubAux]
    rw [if_neg (by simp [List.isPrefixOf, hcd])]
    rw [ih rest (d :: acc)]
    congr 1
    rw [List.append_cons, ← List.replicate_succ' n d, List.replicate_succ, List.cons_append]

theorem dropWhile_replicate_neg {p : Char → Bool} {c : Char} (hc : p c = false) :
    ∀ n : Nat, List.dropWhile p (List.replicate n c) = List.replicate n c := by
  intro n
  induction n with
  | zero => rfl
  | succ n _ =>
    rw [List.replicate_succ, List.dropWhile_cons, hc]
    simp

theorem pyStrip_replicate {c : Char} (hc : isPySpace c = false) (n : Nat) :
    pyStrip (List.replicate n c) = List.replicate n c := by
  rw [pyStrip, dropWhile_replicate_neg hc, List.reverse_replicate,
    dropWhile_replicate_neg hc, List.reverse_replicate]

theorem replicate_2500_ne_nil (c : Char) : List.replicate 2500 c ≠ [] := by
  rw [show (2500 : Nat) = 2499 + 1 from rfl, List.replicate_succ]
  exact List.cons_ne_nil _ _

theorem scanSep_cons_skip (dflt text s : List Char) (rest : List (List Char))
    (hs : s ≠ []) (ho : subOccurs s text = false) :
    scanSep dflt text (s :: rest) = scanSep dflt text rest := by
  rw [scanSep, if_neg hs, if_neg (by simp [ho])]

theorem scanSep_cons_found (dflt text s : List Char) (rest : List (List Char))
    (hs : s ≠ []) (ho : subOccurs s text = true) :
    scanSep dflt text (s :: rest) = (s, rest) := by
  rw [scanSep, if_neg hs, if_pos ho]

theorem mergeStep_no_flush (N O : Nat) (docs cur : List (List Char)) (total : Nat)
    (d : List Char) (h : total + d.length ≤ N) :
    mergeStep N O (docs, cur, total) d = (docs, cur ++ [d], total + d.length) := by
  simp only [mergeStep]
  rw [if_neg (by omega)]

theorem mergeStep_flush (N O : Nat) (docs cur : List (List Char)) (total : Nat)
    (d : List Char) (h : total + d.length > N) (hcur : cur ≠ []) :
    mergeStep N O (docs, cur, total) d =
      ((match joinDocs cur with | some t => docs ++ [t] | none => docs),
       (popOverlap N O d.length cur total).1 ++ [d],
       (popOverlap N O d.length cur total).2 + d.length) := by
  simp only [mergeStep]
  rw [if_pos h, if_pos hcur]

/-- C6, counterexample.  The claim asserts table and image units are
never split.  `split_documents` applies the same size-5000 splitter to
every unit regardless of its `type` metadata: a table unit whose payload
is two 2500-character lines (5001 characters) is split into two chunks.
(The second chunk is moreover stripped of its leading newline, so the
unit does not survive splitting intact in any sense.) -/
theorem C6_counterexample :
    (split_documents
      [{ pageContent := (List.replicate 2500 'a' ++ '\n' :: List.replicate 2500 'b').asString,
         source := "doc.pdf", page := 1, mtype := some "table", tableIndex := some 0 }]).length
      = 2 := by
  have hA : ('\n' : Char) ≠ 'a' := by decide
  have hB : ('\n' : Char) ≠ 'b' := by decide
  have hbeq : (('\n' : Char) == 'b') = false := rfl
  have hnn : (('\n' : Char) == '\n') = true := rfl
  have h1 : subOccurs ['\n', '\n']
      (List.replicate 2500 'a' ++ '\n' :: List.replicate 2500 'b') = false := by
    rw [subOccurs_replicate '\n' ['\n'] 'a' hA, subOccurs]
    have hpre : List.isPrefixOf ['\n', '\n'] ('\n' :: List.replicate 2500 'b') = false := by
      rw [show (2500 : Nat) = 2499 + 1 from rfl, List.replicate_succ]
      simp only [List.isPrefixOf, hbeq, hnn, Bool.false_and, Bool.true_and, Bool.and_false]
    have hrest : subOccurs ['\n', '\n'] (List.replicate 2500 'b') = false := by
      rw [← List.append_nil (List.replicate 2500 'b'),
        subOccurs_replicate '\n' ['\n'] 'b' hB]
      rfl
    rw [hpre, hrest]
    rfl
  have hpre1 : List.isPrefixOf ['\n'] ('\n' :: List.replicate 2500 'b') = true := by
    simp only [List.isPrefixOf, hnn, Bool.true_and]
  have h2 : subOccurs ['\n']
      (List.replicate 2500 'a' ++ '\n' :: List.replicate 2500 'b') = true := by
    rw [subOccurs_replicate '\n' [] 'a' hA, subOccurs, hpre1, Bool.true_or]
  have h3 : findSep RCTS_SEPARATORS
      (List.replicate 2500 'a' ++ '\n' :: List.replicate 2500 'b')
      = (['\n'], [[' '], []]) := by
    rw [findSep]
    show scanSep [] _ [['\n', '\n'], ['\n'], [' '], []] = _
    rw [scanSep_cons_skip _ _ _ _ (by simp) h1,
      scanSep_cons_found _ _ _ _ (by simp) h2]
  have h4 : splitOnSubAux ['\n']
      (List.replicate 2500 'a' ++ '\n' :: List.replicate 2500 'b') []
      = [List.replicate 2500 'a', List.replicate 2500 'b'] := by
    rw [splitOnSubAux_replicate '\n' [] 'a' hA, List.append_nil, splitOnSubAux]
    rw [if_pos ⟨by simp, hpre1⟩]
    rw [show List.drop (['\n'] : List Char).length ('\n' :: List.replicate 2500 'b')
        = List.replicate 2500 'b' by rfl]
    rw [← List.append_nil (List.replicate 2500 'b'),
      splitOnSubAux_replicate '\n' [] 'b' hB, splitOnSubAux]
    simp only [List.append_nil, List.reverse_replicate]
  have h5 : splitWithKeep ['\n']
      (List.replicate 2500 'a' ++ '\n' :: List.replicate 2500 'b')
      = [List.replicate 2500 'a', '\n' :: List.replicate 2500 'b'] := by
    rw [splitWithKeep, if_neg (by simp), h4]
    rfl
  have hlenA : (List.replicate 2500 'a').length = 2500 := List.length_replicate 2500 'a'
  have hlenB : ('\n' :: List.replicate 2500 'b').length = 2501 := by
    rw [List.length_cons, List.length_replicate]
  have hjoinA : joinDocs [List.replicate 2500 'a'] = some (List.replicate 2500 'a') := by
    rw [joinDocs]
    simp only [List.flatten_cons, List.flatten_nil, List.append_nil]
    rw [pyStrip_replicate (by decide)]
    rw [if_neg (replicate_2500_ne_nil 'a')]
  have hstripB : pyStrip ('\n' :: List.replicate 2500 'b') = List.replicate 2500 'b' := by
    rw [pyStrip, List.dropWhile_cons]
    rw [show isPySpace '\n' = true from rfl]
    simp only [if_true]
    rw [dropWhile_replicate_neg (show isPySpace 'b' = false from rfl),
      List.reverse_replicate,
      dropWhile_replicate_neg (show isPySpace 'b' = false from rfl),
      List.reverse_replicate]
  have hjoinB : joinDocs ['\n' :: List.replicate 2500 'b']
      = some (List.replicate 2500 'b') := by
    rw [joinDocs]
    simp only [List.flatten_cons, List.flatten_nil, List.append_nil]
    rw [hstripB, if_neg (replicate_2500_ne_nil 'b')]
  have hpop : popOverlap 5000 200 2501 [List.replicate 2500 'a'] 2500 = ([], 0) := by
    rw [popOverlap, if_pos (by norm_num)]
    show popOverlap 5000 200 2501 [] (2500 - (List.replicate 2500 'a').length) = ([], 0)
    rw [hlenA, Nat.sub_self, popOverlap, if_neg (by norm_num)]
  have e1 : mergeStep 5000 200 ([], [], 0) (List.replicate 2500 'a')
      = ([], [List.replicate 2500 'a'], 2500) := by
    rw [mergeStep_no_flush 5000 200 [] [] 0 _ (by rw [hlenA]; norm_num), hlenA]
    rfl
  have e2 : mergeStep 5000 200 ([], [List.replicate 2500 'a'], 2500)
      ('\n' :: List.replicate 2500 'b')
      = ([List.replicate 2500 'a'], ['\n' :: List.replicate 2500 'b'], 2501) := by
    rw [mergeStep_flush 5000 200 [] [List.replicate 2500 'a'] 2500 _
      (by rw [hlenB]; norm_num) (List.cons_ne_nil _ _), hlenB, hjoinA, hpop]
    rfl
  have h6 : mergeSplits 5000 200
      [List.replicate 2500 'a', '\n' :: List.replicate 2500 'b']
      = [List.replicate 2500 'a', List.replicate 2500 'b'] := by
    rw [mergeSplits]
    simp only [List.foldl_cons, List.foldl_nil, e1, e2]
    rw [hjoinB]
    rfl
  have f1 : ∀ hb, splitStep 5000 200 hb ([], [])
      (List.replicate 2500 'a') = ([], [List.replicate 2500 'a']) := by
    intro hb
    rw [splitStep, if_pos (by rw [hlenA]; norm_num)]
    rfl
  have f2 : ∀ hb, splitStep 5000 200 hb ([], [List.replicate 2500 'a'])
      ('\n' :: List.replicate 2500 'b')
      = ([], [List.replicate 2500 'a', '\n' :: List.replicate 2500 'b']) := by
    intro hb
    rw [splitStep, if_pos (by rw [hlenB]; norm_num)]
    rfl
  have h7 : split_text 5000 200
      (List.replicate 2500 'a' ++ '\n' :: List.replicate 2500 'b')
      = [List.replicate 2500 'a', List.replicate 2500 'b'] := by
    rw [split_text]
    rw [show RCTS_SEPARATORS.length + 1 = 4 + 1 from rfl]
    rw [splitTextFuel]
    simp only [h3, h5, List.foldl_cons, List.foldl_nil, f1, f2]
    rw [if_neg (List.cons_ne_nil _ _), h6]
    rw [List.nil_append]
  show (List.map _ (split_text 5000 200
      (List.replicate 2500 'a' ++ '\n' :: List.replicate 2500 'b')) ++ []).length = 2
  rw [h7]
  rfl


/-! Chunk-size bound for the splitter. -/

theorem dropWhile_len_le (p : Char → Bool) : ∀ l : List Char,
    (List.dropWhile p l).length ≤ l.length := by
  intro l
  induction l with
  | nil => simp
  | cons c cs ih =>
    rw [List.dropWhile_cons]
    split
    · exact Nat.le_succ_of_le ih
    · exact Nat.le_refl _

theorem pyStrip_length_le (l : List Char) : (pyStrip l).length ≤ l.length := by
  rw [pyStrip, List.length_reverse]
  calc ((l.dropWhile isPySpace).reverse.dropWhile isPySpace).length
      ≤ (l.dropWhile isPySpace).reverse.length := dropWhile_len_le _ _
    _ = (l.dropWhile isPySpace).length := List.length_reverse _
    _ ≤ l.length := dropWhile_len_le _ _

theorem sumLens_cons (x : List Char) (l : List (List Char)) :
    sumLens (x :: l) = x.length + sumLens l := by
  simp [sumLens]

theorem sumLens_append (a b : List (List Char)) :
    sumLens (a ++ b) = sumLens a + sumLens b := by
  simp [sumLens]

theorem joinDocs_length (docs : List (List Char)) (t : List Char)
    (h : joinDocs docs = some t) : t.length ≤ sumLens docs := by
  simp only [joinDocs] at h
  by_cases hc : pyStrip docs.flatten = []
  · rw [if_pos hc] at h
    exact absurd h (by simp)
  · rw [if_neg hc] at h
    rw [← Option.some.inj h]
    calc (pyStrip docs.flatten).length ≤ docs.flatten.length := pyStrip_length_le _
      _ = sumLens docs := by rw [List.length_flatten]; rfl

theorem popOverlap_spec (N O len : Nat) :
    ∀ (cur : List (List Char)) (total : Nat), total = sumLens cur →
      (popOverlap N O len cur total).2 = sumLens (popOverlap N O len cur total).1
      ∧ (popOverlap N O len cur total).2 ≤ O
      ∧ ((popOverlap N O len cur total).2 + len ≤ N ∨ (popOverlap N O len cur total).2 = 0) := by
  intro cur
  induction cur with
  | nil =>
    intro total h
    have h0 : total = 0 := by simpa [sumLens] using h
    rw [popOverlap, if_neg (by omega)]
    exact ⟨by rw [h0]; rfl, by omega, Or.inr h0⟩
  | cons c rest ih =>
    intro total h
    rw [popOverlap]
    by_cases hcond : total > O ∨ (total + len > N ∧ total > 0)
    · rw [if_pos hcond]
      have hrest : total - c.length = sumLens rest := by
        rw [h, sumLens_cons]; omega
      exact ih (total - c.length) hrest
    · rw [if_neg hcond]
      exact ⟨h, by omega, by omega⟩

theorem mergeStep_inv (N O : Nat) (st : List (List Char) × List (List Char) × Nat)
    (d : List Char) (hd : d.length < N)
    (h1 : ∀ c ∈ st.1, c.length ≤ N) (h2 : st.2.2 = sumLens st.2.1) (h3 : st.2.2 ≤ N) :
    (∀ c ∈ (mergeStep N O st d).1, c.length ≤ N)
    ∧ (mergeStep N O st d).2.2 = sumLens (mergeStep N O st d).2.1
    ∧ (mergeStep N O st d).2.2 ≤ N := by
  obtain ⟨docs, cur, total⟩ := st
  simp only at h1 h2 h3
  by_cases hov : total + d.length > N
  · have hcur : cur ≠ [] := by
      intro hnil
      rw [hnil] at h2
      simp [sumLens] at h2
      omega
    rw [mergeStep_flush N O docs cur total d hov hcur]
    obtain ⟨p1, p2, p3⟩ := popOverlap_spec N O d.length cur total h2
    refine ⟨?_, ?_, ?_⟩
    · intro c hc
      rcases hj : joinDocs cur with _ | t
      · rw [hj] at hc
        exact h1 c hc
      · rw [hj] at hc
        rcases List.mem_append.mp hc with hcd | hct
        · exact h1 c hcd
        · rcases List.mem_singleton.mp hct with rfl
          calc c.length ≤ sumLens cur := joinDocs_length cur c hj
            _ = total := h2.symm
            _ ≤ N := h3
    · show (popOverlap N O d.length cur total).2 + d.length
        = sumLens ((popOverlap N O d.length cur total).1 ++ [d])
      rw [sumLens_append, ← p1]
      simp [sumLens]
    · show (popOverlap N O d.length cur total).2 + d.length ≤ N
      rcases p3 with hle | h0
      · exact hle
      · omega
  · rw [mergeStep_no_flush N O docs cur total d (by omega)]
    refine ⟨h1, ?_, ?_⟩
    · show total + d.length = sumLens (cur ++ [d])
      rw [sumLens_append, h2]
      simp [sumLens]
    · show total + d.length ≤ N
      omega

theorem foldl_mergeStep_inv (N O : Nat) :
    ∀ (splits : List (List Char)) (st : List (List Char) × List (List Char) × Nat),
      (∀ s ∈ splits, s.length < N) →
      (∀ c ∈ st.1, c.length ≤ N) → st.2.2 = sumLens st.2.1 → st.2.2 ≤ N →
      (∀ c ∈ (splits.foldl (mergeStep N O) st).1, c.length ≤ N)
      ∧ (splits.foldl (mergeStep N O) st).2.2
          = sumLens ((splits.foldl (mergeStep N O) st).2.1)
      ∧ (splits.foldl (mergeStep N O) st).2.2 ≤ N := by
  intro splits
  induction splits with
  | nil => intro st _ h1 h2 h3; exact ⟨h1, h2, h3⟩
  | cons s ss ih =>
    intro st hs h1 h2 h3
    rw [List.foldl_cons]
    obtain ⟨m1, m2, m3⟩ := mergeStep_inv N O st s (hs s (List.mem_cons_self s ss)) h1 h2 h3
    exact ih (mergeStep N O st s) (fun x hx => hs x (List.mem_cons_of_mem s hx)) m1 m2 m3

theorem mergeSplits_bound (N O : Nat) (splits : List (List Char))
    (hs : ∀ s ∈ splits, s.length < N) :
    ∀ c ∈ mergeSplits N O splits, c.length ≤ N := by
  intro c hc
  simp only [mergeSplits] at hc
  obtain ⟨i1, i2, i3⟩ := foldl_mergeStep_inv N O splits ([], [], 0) hs
    (fun x hx => absurd hx (List.not_mem_nil x)) rfl (Nat.zero_le N)
  rcases hj : joinDocs ((splits.foldl (mergeStep N O) ([], [], 0)).2.1) with _ | t
  · rw [hj] at hc
    exact i1 c hc
  · rw [hj] at hc
    rcases List.mem_append.mp hc with hcd | hct
    · exact i1 c hcd
    · rcases List.mem_singleton.mp hct with rfl
      calc c.length ≤ sumLens ((splits.foldl (mergeStep N O) ([], [], 0)).2.1) :=
            joinDocs_length _ c hj
        _ ≤ N := by rw [← i2]; exact i3

theorem scanSep_spec (dflt : List Char) (text : List Char) :
    ∀ seps : List (List Char), [] ∈ seps →
      scanSep dflt text seps = ([], [])
      ∨ ∃ s rest, scanSep dflt text seps = (s, rest) ∧ s ≠ [] ∧ [] ∈ rest := by
  intro seps
  induction seps with
  | nil => intro h; exact absurd h (List.not_mem_nil _)
  | cons s rest ih =>
    intro hmem
    by_cases hs : s = []
    · left
      rw [scanSep, if_pos hs]
    · have hrest : ([] : List Char) ∈ rest := by
        rcases List.mem_cons.mp hmem with h | h
        · exact absurd h.symm hs
        · exact h
      by_cases ho : subOccurs s text = true
      · exact Or.inr ⟨s, rest, scanSep_cons_found dflt text s rest hs ho, hs, hrest⟩
      · rw [scanSep_cons_skip dflt text s rest hs (by simpa using ho)]
        exact ih hrest

theorem splitWithKeep_nil_sep (text : List Char) :
    ∀ c ∈ splitWithKeep [] text, c.length = 1 := by
  intro c hc
  rw [splitWithKeep, if_pos rfl] at hc
  obtain ⟨hmem, _⟩ := List.mem_filter.mp hc
  obtain ⟨x, _, rfl⟩ := List.mem_map.mp hmem
  rfl

theorem foldl_splitStep_small (N O : Nat) (hb : List Char → List (List Char)) :
    ∀ (splits : List (List Char)) (fin good : List (List Char)),
      (∀ s ∈ splits, s.length < N) →
      splits.foldl (splitStep N O hb) (fin, good) = (fin, good ++ splits) := by
  intro splits
  induction splits with
  | nil => intro fin good _; simp
  | cons s ss ih =>
    intro fin good h
    rw [List.foldl_cons,
      show splitStep N O hb (fin, good) s = (fin, good ++ [s]) from by
        rw [splitStep, if_pos (h s (List.mem_cons_self s ss))],
      ih fin (good ++ [s]) (fun x hx => h x (List.mem_cons_of_mem s hx)),
      List.append_assoc]
    rfl

theorem foldl_splitStep_inv (N O : Nat) (hb : List Char → List (List Char))
    (hbB : ∀ s, N ≤ s.length → ∀ c ∈ hb s, c.length ≤ N) :
    ∀ (splits : List (List Char)) (st : List (List Char) × List (List Char)),
      (∀ c ∈ st.1, c.length ≤ N) → (∀ g ∈ st.2, g.length < N) →
      (∀ c ∈ (splits.foldl (splitStep N O hb) st).1, c.length ≤ N)
      ∧ (∀ g ∈ (splits.foldl (splitStep N O hb) st).2, g.length < N) := by
  intro splits
  induction splits with
  | nil => intro st h1 h2; exact ⟨h1, h2⟩
  | cons s ss ih =>
    intro st h1 h2
    rw [List.foldl_cons]
    by_cases hlen : s.length < N
    · rw [show splitStep N O hb st s = (st.1, st.2 ++ [s]) from by
        rw [splitStep, if_pos hlen]]
      refine ih (st.1, st.2 ++ [s]) h1 ?_
      intro g hg
      rcases List.mem_append.mp hg with h | h
      · exact h2 g h
      · rcases List.mem_singleton.mp h with rfl
        exact hlen
    · rw [show splitStep N O hb st s =
          ((if st.2 = [] then st.1 else st.1 ++ mergeSplits N O st.2) ++ hb s, []) from by
        rw [splitStep, if_neg hlen]]
      refine ih _ ?_ (fun g hg => absurd hg (List.not_mem_nil g))
      intro c hc
      rcases List.mem_append.mp hc with h | h
      · by_cases hg : st.2 = []
        · rw [if_pos hg] at h
          exact h1 c h
        · rw [if_neg hg] at h
          rcases List.mem_append.mp h with h' | h'
          · exact h1 c h'
          · exact mergeSplits_bound N O st.2 h2 c h'
      · exact hbB s (by omega) c h

theorem splitTextFuel_bound (N O : Nat) (hN : 2 ≤ N) :
    ∀ (fuel : Nat) (seps : List (List Char)) (text : List Char), [] ∈ seps →
      ∀ c ∈ splitTextFuel N O fuel seps text, c.length ≤ N := by
  intro fuel
  induction fuel with
  | zero =>
    intro seps text _ c hc
    rw [splitTextFuel] at hc
    exact absurd hc (List.not_mem_nil c)
  | succ fuel ih =>
    intro seps text hsep c hc
    rw [splitTextFuel] at hc
    rcases scanSep_spec (seps.getLastD []) text seps hsep with hA | ⟨s, rest, hB, hsne, hrest⟩
    · have hf : findSep seps text = ([], []) := by rw [findSep]; exact hA
      rw [hf] at hc
      simp only at hc
      have hsplits : ∀ x ∈ splitWithKeep [] text, x.length < N := by
        intro x hx
        rw [splitWithKeep_nil_sep text x hx]
        omega
      rw [foldl_splitStep_small N O _ (splitWithKeep [] text) [] [] hsplits] at hc
      simp only [List.nil_append] at hc
      by_cases hsp : splitWithKeep [] text = []
      · rw [if_pos hsp] at hc
        exact absurd hc (List.not_mem_nil c)
      · rw [if_neg hsp] at hc
        exact mergeSplits_bound N O _ hsplits c hc
    · have hf : findSep seps text = (s, rest) := by rw [findSep]; exact hB
      rw [hf] at hc
      simp only at hc
      have hrne : rest ≠ [] := by
        intro h
        rw [h] at hrest
        exact List.not_mem_nil _ hrest
      have hbB : ∀ s', N ≤ s'.length →
          ∀ x ∈ (if rest = [] then [s'] else splitTextFuel N O fuel rest s'), x.length ≤ N := by
        intro s' _ x hx
        rw [if_neg hrne] at hx
        exact ih rest s' hrest x hx
      obtain ⟨i1, i2⟩ := foldl_splitStep_inv N O
        (fun s' => if rest = [] then [s'] else splitTextFuel N O fuel rest s') hbB
        (splitWithKeep s text) ([], [])
        (fun x hx => absurd hx (List.not_mem_nil x))
        (fun g hg => absurd hg (List.not_mem_nil g))
      by_cases hst : ((splitWithKeep s text).foldl
          (splitStep N O (fun s' => if rest = [] then [s'] else splitTextFuel N O fuel rest s'))
          ([], [])).2 = []
      · rw [if_pos hst] at hc
        exact i1 c hc
      · rw [if_neg hst] at hc
        rcases List.mem_append.mp hc with h | h
        · exact i1 c h
        · exact mergeSplits_bound N O _ i2 c h

theorem split_text_bound (text : List Char) :
    ∀ c ∈ split_text 5000 200 text, c.length ≤ 5000 := by
  intro c hc
  rw [split_text] at hc
  exact splitTextFuel_bound 5000 200 (by omega) (RCTS_SEPARATORS.length + 1)
    RCTS_SEPARATORS text (by decide) c hc

/-- C6, amended.  `split_documents` applies the same
`RecursiveCharacterTextSplitter` (size 5000, overlap parameter 200) to
*every* unit regardless of kind — a table or image unit whose payload
exceeds 5000 characters is split just like a text unit (see the
counterexample).  Every chunk it emits is at most 5000 characters long,
every chunk carries the source, page, and kind metadata of the unit it
was derived from, and the splitting is deterministic (it is a pure
function of the input documents). -/
theorem C6_split_bound_metadata (docs : List Doc) :
    ∀ c ∈ split_documents docs,
      c.pageContent.length ≤ 5000
      ∧ ∃ d ∈ docs, c.source = d.source ∧ c.page = d.page ∧ c.mtype = d.mtype := by
  intro c hc
  rw [split_documents] at hc
  obtain ⟨d, hd, hc'⟩ := List.mem_flatMap.mp hc
  obtain ⟨chunk, hchunk, rfl⟩ := List.mem_map.mp hc'
  exact ⟨split_text_bound _ chunk hchunk, d, hd, rfl, rfl, rfl⟩

/-- C6, witness: a short image unit passes through the splitter as a
single bounded chunk with its metadata intact. -/
theorem C6_witness :
    sampleImageDoc.pageContent.length ≤ 5000
    ∧ ∃ d ∈ [sampleImageDoc], sampleImageDoc.source = d.source
        ∧ sampleImageDoc.page = d.page ∧ sampleImageDoc.mtype = d.mtype :=
  C6_split_bound_metadata [sampleImageDoc] sampleImageDoc (by decide)

end MultimodalRag
